import Mathlib

/-!
Shallow embedding of the Brain Image Library inventory report
(src/streamlit_app.py) and proofs about the claims of its specification.

The script is a single linear Streamlit run: it fetches a JSON inventory,
derives a collection code and a human-readable size per record, sorts by
file count, and renders tables and a pie chart.  All pure data
transformations of the script are reproduced here as executable Lean
functions over lists of records; the Streamlit render pass is modelled as
a function producing the ordered list of emitted UI elements.
-/

namespace BrainInventory

/-! ### Collection extraction (lines 33-37 of streamlit_app.py)

The script runs the regular expression search
re.search with pattern slash bil slash data slash, then a captured group of
two characters of class a-f0-9, then a slash, against the bildirectory
string, and keeps group 1 on a match and None otherwise.  re.search returns
the leftmost match, scanning start positions left to right. -/

/-- Character class a-f0-9 of the pattern: one lowercase hex digit. -/
def isHexLower (c : Char) : Bool :=
  (decide ('a' ≤ c) && decide (c ≤ 'f')) || (decide ('0' ≤ c) && decide (c ≤ '9'))

/-- One attempt of the pattern at the current start position: the literal
text of ten characters, then two hex characters (the captured group), then
a slash.  Returns the captured group on success. -/
def matchAt (l : List Char) : Option String :=
  if l.take 10 = "/bil/data/".data then
    match l.drop 10 with
    | h1 :: h2 :: c :: _ =>
      if c = '/' ∧ (isHexLower h1 && isHexLower h2) = true then some (String.mk [h1, h2])
      else none
    | _ => none
  else none

/-- Scan of re.search: try every start position from the left, return the
first successful capture. -/
def searchFrom : List Char → Option String
  | [] => none
  | c :: cs =>
    match matchAt (c :: cs) with
    | some s => some s
    | none => searchFrom cs

/-- extract_collection of streamlit_app.py: group 1 of the leftmost match,
None when the pattern does not occur. -/
def extract_collection (path : String) : Option String :=
  searchFrom path.data

/-! ### Size formatting (line 40)

The script computes humanize.naturalsize(s, binary=True) when the size is
not null and None otherwise.  humanize.naturalsize with binary=True picks
the first unit KiB..YiB whose threshold 1024^(i+2) exceeds the value
(values below 1024 print as integer Bytes, the value 1 as 1 Byte), and
formats value/1024^(i+1) with one decimal digit.  The one-decimal
formatting rounds to the nearest tenth, ties to even, which we model
exactly on rationals expressed as a numerator over a denominator. -/

/-- Round-to-nearest of the fraction a/b, ties to the even integer
(the rounding of printf-style one-decimal formatting). -/
def rheNat (a b : Nat) : Nat :=
  if 2 * (a % b) < b then a / b
  else if b < 2 * (a % b) then a / b + 1
  else if (a / b) % 2 = 0 then a / b else a / b + 1

/-- Render a number of tenths as a decimal string with one fractional
digit. -/
def fmtTenths (t : Nat) : String :=
  toString (t / 10) ++ "." ++ toString (t % 10)

/-- Binary unit names of humanize, in threshold order. -/
def binarySuffixes : List String := ["KiB", "MiB", "GiB", "TiB", "PiB", "EiB", "ZiB", "YiB"]

/-- Index of the unit naturalsize selects for a value of 1024 or more:
least i with n below 1024^(i+2); values of 1024^9 and beyond fall through
the loop and reuse the last unit. -/
def unitIndex (n : Nat) : Nat :=
  if n < 1024 ^ 2 then 0
  else if n < 1024 ^ 3 then 1
  else if n < 1024 ^ 4 then 2
  else if n < 1024 ^ 5 then 3
  else if n < 1024 ^ 6 then 4
  else if n < 1024 ^ 7 then 5
  else if n < 1024 ^ 8 then 6
  else 7

/-- humanize.naturalsize(n, binary=True) on a non-negative integer. -/
def naturalsizeBinary (n : Nat) : String :=
  if n = 1 then "1 Byte"
  else if n < 1024 then toString n ++ " Bytes"
  else
    fmtTenths (rheNat (10 * n) (1024 ^ (unitIndex n + 1))) ++ " " ++
      binarySuffixes.getD (unitIndex n) "YiB"

/-- The pretty_size column computation of line 40: format when the size is
present, keep the absence otherwise. -/
def pretty_size (s : Option Nat) : Option String := s.map naturalsizeBinary

/-- Magnitude a reader extracts from the rendered size string, in tenths
of a byte: the displayed number times the byte value of the displayed
unit, times ten.  Below 1024 the display is the integer byte count; from
1024 on it is the rounded tenths value times the unit 1024^(unitIndex+1). -/
def magTenths (n : Nat) : Nat :=
  if n < 1024 then 10 * n
  else rheNat (10 * n) (1024 ^ (unitIndex n + 1)) * 1024 ^ (unitIndex n + 1)

/-- Unit tails a naturalsize binary rendering can end in, each with its
separating space. -/
def unitStrings : List String :=
  [" Byte", " Bytes", " KiB", " MiB", " GiB", " TiB", " PiB", " EiB", " ZiB", " YiB"]

/-- A string is a binary-unit size rendering: some core followed by one of
the 1024-based unit tails. -/
def usesBinaryUnit (s : String) : Prop :=
  ∃ core u, u ∈ unitStrings ∧ s = core ++ u

/-! ### Records

One raw record per element of the fetched JSON array, with the fields the
script reads.  bildirectory is optional: a null there makes re.search
raise a TypeError inside the try block.  After the two derived columns of
lines 37 and 40 are added we work with Record. -/

structure RawRecord where
  bildid : String
  bildirectory : Option String
  number_of_files : Nat
  size : Option Nat
deriving DecidableEq

structure Record where
  bildid : String
  bildirectory : String
  number_of_files : Nat
  size : Option Nat
  collection : Option String
  pretty_size : Option String
deriving DecidableEq

/-- Lines 37 and 40: add the collection and pretty_size columns.  A null
bildirectory raises (re.search rejects a non-string), which the top-level
handler turns into the single error message; a null size is passed
through as an absent pretty_size. -/
def addColumns (l : List RawRecord) : Except String (List Record) :=
  l.mapM fun r =>
    match r.bildirectory with
    | none => Except.error "TypeError: expected string or bytes-like object"
    | some p =>
      Except.ok
        (Record.mk r.bildid p r.number_of_files r.size (extract_collection p)
          (pretty_size r.size))

/-! ### Sorting (lines 43 and 78)

pandas sort_values with ascending=False computes an ascending argsort of
the reversed array and reverses the resulting permutation (nargsort of
pandas/core/sorting.py).  The default kind is quicksort, numpy introsort,
which gives SOME ascending order of the keys but does not promise a tie
order: its partition pass demonstrably swaps equal keys once the range
exceeds the insertion-sort threshold of 16 (an all-equal array of 17 keys
comes back permuted).  We therefore model the library call two ways:
relationally by its contract (any ascending permutation, then the double
reversal), and as a deterministic representative that instantiates the
contract with the stable ascending sort, exact for the small inputs on
which numpy uses plain insertion sort. -/

/-- Ascending key order on records used by line 43. -/
def fileLe (a b : Record) : Prop := a.number_of_files ≤ b.number_of_files

instance : DecidableRel fileLe := fun a b => Nat.decLe a.number_of_files b.number_of_files

instance : IsTotal Record fileLe := ⟨fun a b => Nat.le_total a.number_of_files b.number_of_files⟩

instance : IsTrans Record fileLe := ⟨fun _ _ _ => Nat.le_trans⟩

/-- Ascending key order on pie slices used by line 78. -/
def sliceLe (a b : String × Nat) : Prop := a.2 ≤ b.2

instance : DecidableRel sliceLe := fun a b => Nat.decLe a.2 b.2

instance : IsTotal (String × Nat) sliceLe := ⟨fun a b => Nat.le_total a.2 b.2⟩

instance : IsTrans (String × Nat) sliceLe := ⟨fun _ _ _ => Nat.le_trans⟩

/-- Contract of the ascending numpy argsort behind line 43: some
reordering of the rows whose keys come out ascending. -/
def npArgsortAscFiles (l out : List Record) : Prop :=
  List.Perm out l ∧ List.Chain' (fun a b => a.number_of_files ≤ b.number_of_files) out

/-- Contract of df.sort_values(by=number_of_files, ascending=False):
pandas reverses the input, takes any ascending argsort of it, and
reverses the resulting order. -/
def sort_values_files_desc (l out : List Record) : Prop :=
  ∃ mid, npArgsortAscFiles l.reverse mid ∧ out = mid.reverse

/-- Deterministic representative of line 43 used by the render model:
the pandas double reversal around a stable ascending sort. -/
def df_sorted (l : List Record) : List Record :=
  (List.insertionSort fileLe l.reverse).reverse

/-! ### Collection list (line 61) and filtering (lines 66 and 77) -/

/-- pandas unique: keep the first occurrence of every value, in input
order.  seen accumulates the values already emitted. -/
def uniqueFirstAux (seen : List String) : List String → List String
  | [] => []
  | x :: xs =>
    if x ∈ seen then uniqueFirstAux seen xs
    else x :: uniqueFirstAux (x :: seen) xs

/-- Lexicographic strictly-below test on character lists, comparing code
points, the order Python uses on strings. -/
def lexLtCh : List Char → List Char → Bool
  | [], [] => false
  | [], _ :: _ => true
  | _ :: _, [] => false
  | a :: as, b :: bs =>
    if a.toNat < b.toNat then true
    else if b.toNat < a.toNat then false
    else lexLtCh as bs

/-- Strict lexicographic order on strings by code points. -/
def strLt (a b : String) : Prop := lexLtCh a.data b.data = true

/-- Lexicographic at-most order on strings by code points, the key order
of the Python sorted call of line 61. -/
def strLe (a b : String) : Prop := lexLtCh b.data a.data = false

instance : DecidableRel strLt :=
  fun a b => inferInstanceAs (Decidable (lexLtCh a.data b.data = true))

instance : DecidableRel strLe :=
  fun a b => inferInstanceAs (Decidable (lexLtCh b.data a.data = false))

/-- Line 61: sorted(df[collection].dropna().unique()) - drop the nulls,
de-duplicate keeping first occurrences, sort ascending (Python sorted is
a stable ascending sort under the lexicographic string order). -/
def unique_collections (recs : List Record) : List String :=
  List.insertionSort strLe (uniqueFirstAux [] (recs.filterMap fun r => r.collection))

/-- Line 66: the rows of df whose collection equals the selection, in df
order (the unsorted frame is filtered, not df_sorted). -/
def filtered_df (recs : List Record) (selected : Option String) : List Record :=
  recs.filter fun r => r.collection == selected

/-- Lines 77-78: series bildid to number_of_files over the selected
collection, keep the strictly positive counts, sort descending (the same
pandas double reversal as line 43, here around the stable ascending sort). -/
def pie_data (recs : List Record) (selected : Option String) : List (String × Nat) :=
  (List.insertionSort sliceLe
      (((recs.filter fun r => r.collection == selected).map
            fun r => (r.bildid, r.number_of_files)).filter
        fun p => decide (0 < p.2))).reverse

/-- Line 92: num_cols = (len(labels) - 1) // 25 + 1 with Python floor
division, hence Int.fdiv. -/
def legendNumCols (labels : List String) : Int :=
  ((labels.length : Int) - 1).fdiv 25 + 1

/-! ### The render pass

The Streamlit run emits elements in source order.  Everything before the
try block (title, intro, date line, caption) always renders; the first
fallible steps inside the try block (fetch, status check, JSON parse, the
two derived columns) all precede the first st.dataframe call, so on any
of those errors the except arm of line 106 renders the single st.error
element and nothing of the data UI. -/

inductive UIElem where
  | title (t : String)
  | markdownText (t : String)
  | caption (t : String)
  | subheader (t : String)
  | dataframe (rows : List (Option String × String × Nat × Option String))
  | selectbox (opts : List String)
  | pyplotPie (slices : List (String × Nat)) (legendCols : Int)
  | errorBox (msg : String)
deriving DecidableEq

def introText : String :=
  "The Brain Image Library (BIL) is a national public resource that supports the storage, sharing, and analysis of large-scale brain imaging datasets.\nThis report provides a snapshot of the current dataset inventory, highlighting key metadata including file counts, sizes, and organizational structure."

def url : String :=
  "https://download.brainimagelibrary.org//inventory/daily/reports/today.json"

/-- Elements of lines 10-24, rendered before the try block. -/
def preamble (todayStr : String) : List UIElem :=
  [UIElem.title "🧠 Brain Image Library Inventory Report",
    UIElem.markdownText introText,
    UIElem.markdownText ("### 📅 Report Date: " ++ todayStr),
    UIElem.caption ("Loading data from: " ++ url)]

/-- Column selection of lines 46-51 and 66-71: Collection, Brain ID,
Number of Files, Size. -/
def previewOf (l : List Record) : List (Option String × String × Nat × Option String) :=
  l.map fun r => (r.collection, r.bildid, r.number_of_files, r.pretty_size)

/-- Elements of lines 54-104 on a successful load.  pick models the
selectbox: given the offered options it yields the active selection
(None when the list is empty, as st.selectbox then returns None; the
Streamlit default is the first option). -/
def renderLoaded (full : List Record) (pick : List String → Option String) : List UIElem :=
  [UIElem.subheader "Preview: Sorted by Number of Files (Descending)",
    UIElem.dataframe (previewOf (df_sorted full)),
    UIElem.subheader "📁 Collections",
    UIElem.selectbox (unique_collections full),
    UIElem.markdownText
      ("You selected: **" ++ (pick (unique_collections full)).getD "None" ++ "**"),
    UIElem.dataframe (previewOf (filtered_df full (pick (unique_collections full)))),
    UIElem.subheader "📈 File Distribution in Selected Collection",
    UIElem.pyplotPie (pie_data full (pick (unique_collections full)))
      (legendNumCols ((pie_data full (pick (unique_collections full))).map Prod.fst))]

/-- The try block of lines 26-104.  fetched is the outcome of the
request, status check and JSON parse together (each raises before any
element of the data UI is emitted); addColumns is the first fallible
transformation.  Every fallible step precedes the first emission, so an
error yields no data elements at all, matching the script. -/
def tryBlock (fetched : Except String (List RawRecord))
    (pick : List String → Option String) : Except String (List UIElem) :=
  match fetched with
  | Except.error e => Except.error e
  | Except.ok raw =>
    match addColumns raw with
    | Except.error e => Except.error e
    | Except.ok full => Except.ok (renderLoaded full pick)

/-- One full Streamlit run: the preamble, then either the data UI or the
single st.error element of line 107. -/
def runApp (todayStr : String) (fetched : Except String (List RawRecord))
    (pick : List String → Option String) : List UIElem :=
  preamble todayStr ++
    match tryBlock fetched pick with
    | Except.ok es => es
    | Except.error e => [UIElem.errorBox ("Failed to load or process data: " ++ e)]

/-- Table elements of the run output. -/
def isTableElem : UIElem → Bool
  | UIElem.dataframe _ => true
  | _ => false

/-- Chart elements of the run output. -/
def isChartElem : UIElem → Bool
  | UIElem.pyplotPie _ _ => true
  | _ => false

/-- Error elements of the run output. -/
def isErrorElem : UIElem → Bool
  | UIElem.errorBox _ => true
  | _ => false

/-! ### Spec-side reading of claim C1

Modelled from the spec: the claim quantifies over paths containing ANY
two-hex-character segment between slashes, not only one following the
literal bil data root of the pattern actually used by the code. -/

/-- Modelled from the spec: the path contains a segment slash, two
lowercase hex characters, slash somewhere. -/
def specTwoHexSeg (path : String) : Prop :=
  ∃ h1 h2 pre suf, (isHexLower h1 && isHexLower h2) = true ∧
    path.data = pre ++ '/' :: h1 :: h2 :: '/' :: suf

/-! ## Helper lemmas: the lexicographic string order -/

theorem lexLtCh_asymm : ∀ x y : List Char, lexLtCh x y = true → lexLtCh y x = false := by
  intro x
  induction x with
  | nil =>
    intro y h
    cases y with
    | nil => simp [lexLtCh] at h
    | cons b bs => simp [lexLtCh]
  | cons a as ih =>
    intro y h
    cases y with
    | nil => simp [lexLtCh] at h
    | cons b bs =>
      simp only [lexLtCh] at h ⊢
      rcases Nat.lt_trichotomy a.toNat b.toNat with h1 | h1 | h1
      · rw [if_neg (by omega), if_pos h1]
      · rw [if_neg (by omega), if_neg (by omega)] at h
        rw [if_neg (by omega), if_neg (by omega)]
        exact ih bs h
      · rw [if_neg (by omega), if_pos h1] at h
        exact Bool.noConfusion h

theorem lexLtCh_trans :
    ∀ x y z : List Char, lexLtCh x y = true → lexLtCh y z = true → lexLtCh x z = true := by
  intro x
  induction x with
  | nil =>
    intro y z hxy hyz
    cases y with
    | nil => simp [lexLtCh] at hxy
    | cons b bs =>
      cases z with
      | nil => simp [lexLtCh] at hyz
      | cons c cs => simp [lexLtCh]
  | cons a as ih =>
    intro y z hxy hyz
    cases y with
    | nil => simp [lexLtCh] at hxy
    | cons b bs =>
      cases z with
      | nil => simp [lexLtCh] at hyz
      | cons c cs =>
        simp only [lexLtCh] at hxy hyz ⊢
        rcases Nat.lt_trichotomy a.toNat b.toNat with h1 | h1 | h1
        · rcases Nat.lt_trichotomy b.toNat c.toNat with h2 | h2 | h2
          · rw [if_pos (by omega)]
          · rw [if_pos (by omega)]
          · rw [if_neg (by omega), if_pos h2] at hyz
            exact Bool.noConfusion hyz
        · rw [if_neg (by omega), if_neg (by omega)] at hxy
          rcases Nat.lt_trichotomy b.toNat c.toNat with h2 | h2 | h2
          · rw [if_pos (by omega)]
          · rw [if_neg (by omega), if_neg (by omega)] at hyz
            rw [if_neg (by omega), if_neg (by omega)]
            exact ih bs cs hxy hyz
          · rw [if_neg (by omega), if_pos h2] at hyz
            exact Bool.noConfusion hyz
        · rw [if_neg (by omega), if_pos h1] at hxy
          exact Bool.noConfusion hxy

theorem lexLtCh_connex :
    ∀ x y : List Char, lexLtCh x y = false → lexLtCh y x = false → x = y := by
  intro x
  induction x with
  | nil =>
    intro y hxy _
    cases y with
    | nil => rfl
    | cons b bs => simp [lexLtCh] at hxy
  | cons a as ih =>
    intro y hxy hyx
    cases y with
    | nil => simp [lexLtCh] at hyx
    | cons b bs =>
      simp only [lexLtCh] at hxy hyx
      rcases Nat.lt_trichotomy a.toNat b.toNat with h1 | h1 | h1
      · rw [if_pos h1] at hxy
        exact Bool.noConfusion hxy
      · rw [if_neg (by omega), if_neg (by omega)] at hxy
        rw [if_neg (by omega), if_neg (by omega)] at hyx
        have hab : a = b := by
          have h2 := congrArg Char.ofNat h1
          rwa [Char.ofNat_toNat, Char.ofNat_toNat] at h2
        rw [hab, ih bs hxy hyx]
      · rw [if_pos h1] at hyx
        exact Bool.noConfusion hyx

theorem lexLtCh_trichotomy (u v : List Char) :
    lexLtCh u v = true ∨ u = v ∨ lexLtCh v u = true := by
  cases h1 : lexLtCh u v
  · cases h2 : lexLtCh v u
    · exact Or.inr (Or.inl (lexLtCh_connex u v h1 h2))
    · exact Or.inr (Or.inr rfl)
  · exact Or.inl rfl

theorem strLe_total : ∀ a b : String, strLe a b ∨ strLe b a := by
  intro a b
  cases h : lexLtCh b.data a.data
  · exact Or.inl h
  · exact Or.inr (lexLtCh_asymm b.data a.data h)

theorem strLe_trans : ∀ a b c : String, strLe a b → strLe b c → strLe a c := by
  intro a b c hab hbc
  unfold strLe at hab hbc ⊢
  cases hh : lexLtCh c.data a.data
  · rfl
  · exfalso
    rcases lexLtCh_trichotomy a.data b.data with h | h | h
    · have := lexLtCh_trans c.data a.data b.data hh h
      rw [this] at hbc
      exact Bool.noConfusion hbc
    · rw [← h] at hbc
      rw [hh] at hbc
      exact Bool.noConfusion hbc
    · rw [h] at hab
      exact Bool.noConfusion hab

theorem strLt_of_strLe_of_ne {a b : String} (hle : strLe a b) (hne : a ≠ b) : strLt a b := by
  unfold strLe at hle
  unfold strLt
  cases hh : lexLtCh a.data b.data
  · exfalso
    have hdata : a.data = b.data := lexLtCh_connex a.data b.data hh hle
    exact hne (String.toList_inj.mp hdata)
  · rfl

/-! ## Helper lemmas: first-occurrence de-duplication -/

theorem mem_uniqueFirstAux :
    ∀ (l seen : List String) (a : String),
      a ∈ uniqueFirstAux seen l ↔ a ∈ l ∧ a ∉ seen := by
  intro l
  induction l with
  | nil =>
    intro seen a
    simp [uniqueFirstAux]
  | cons x xs ih =>
    intro seen a
    simp only [uniqueFirstAux]
    split_ifs with hx
    · rw [ih]
      simp only [List.mem_cons]
      constructor
      · rintro ⟨h1, h2⟩
        exact ⟨Or.inr h1, h2⟩
      · rintro ⟨h1, h2⟩
        rcases h1 with rfl | h1
        · exact absurd hx h2
        · exact ⟨h1, h2⟩
    · simp only [List.mem_cons, ih]
      constructor
      · rintro (rfl | ⟨h1, h2⟩)
        · exact ⟨Or.inl rfl, hx⟩
        · exact ⟨Or.inr h1, fun hs => h2 (Or.inr hs)⟩
      · rintro ⟨h1, h2⟩
        rcases h1 with rfl | h1
        · exact Or.inl rfl
        · by_cases hax : a = x
          · exact Or.inl hax
          · exact Or.inr ⟨h1, fun hs => hs.elim hax h2⟩

theorem nodup_uniqueFirstAux : ∀ l seen : List String, (uniqueFirstAux seen l).Nodup := by
  intro l
  induction l with
  | nil =>
    intro seen
    simp [uniqueFirstAux]
  | cons x xs ih =>
    intro seen
    simp only [uniqueFirstAux]
    split_ifs with hx
    · exact ih seen
    · refine List.nodup_cons.mpr ⟨fun hmem => ?_, ih (x :: seen)⟩
      have h := (mem_uniqueFirstAux xs (x :: seen) x).mp hmem
      exact h.2 (List.mem_cons_self x seen)

/-! ## Helper lemmas: stability of the insertion sort under filtering

Filtering a stably sorted list by a predicate that only keeps mutually
le-related elements (in our uses: elements of one key value) recovers the
filtered input unchanged - the tie order of a stable ascending sort is
the input order. -/

theorem orderedInsert_filter {α : Type} (r : α → α → Prop) [DecidableRel r] (p : α → Bool)
    (hp : ∀ a b, p a = true → p b = true → r a b) (x : α) :
    ∀ l : List α, (List.orderedInsert r x l).filter p =
      if p x then x :: l.filter p else l.filter p := by
  intro l
  induction l with
  | nil =>
    cases hpx : p x <;> simp [List.orderedInsert, List.filter, hpx]
  | cons y ys ih =>
    by_cases hxy : r x y
    · rw [List.orderedInsert, if_pos hxy]
      cases hpx : p x <;> simp [List.filter_cons, hpx]
    · rw [List.orderedInsert, if_neg hxy]
      cases hpy : p y
      · simp [List.filter_cons, hpy, ih]
      · have hpx : p x = false := by
          cases hpxc : p x
          · rfl
          · exact absurd (hp x y hpxc hpy) hxy
        simp [List.filter_cons, hpy, hpx, ih]

theorem insertionSort_filter {α : Type} (r : α → α → Prop) [DecidableRel r] (p : α → Bool)
    (hp : ∀ a b, p a = true → p b = true → r a b) :
    ∀ l : List α, (List.insertionSort r l).filter p = l.filter p := by
  intro l
  induction l with
  | nil => rfl
  | cons x xs ih =>
    rw [List.insertionSort, orderedInsert_filter r p hp, ih, List.filter_cons]

/-! ## Helper lemmas: size formatting -/

theorem le_rheNat (a b : Nat) : a / b ≤ rheNat a b := by
  unfold rheNat
  generalize a / b = q
  generalize a % b = r
  split_ifs <;> omega

theorem rheNat_le (a b : Nat) : rheNat a b ≤ a / b + 1 := by
  unfold rheNat
  generalize a / b = q
  generalize a % b = r
  split_ifs <;> omega

theorem rheNat_mono_aux (b q r r' : Nat) (hr : r ≤ r') :
    (if 2 * r < b then q else if b < 2 * r then q + 1 else if q % 2 = 0 then q else q + 1) ≤
      if 2 * r' < b then q else if b < 2 * r' then q + 1 else if q % 2 = 0 then q else q + 1 := by
  split_ifs <;> omega

theorem rheNat_mono {a a' : Nat} (b : Nat) (h : a ≤ a') : rheNat a b ≤ rheNat a' b := by
  rcases Nat.lt_or_ge (a / b) (a' / b) with hq | hq
  · have h1 : rheNat a b ≤ a / b + 1 := rheNat_le a b
    have h2 : a' / b ≤ rheNat a' b := le_rheNat a' b
    omega
  · have hq' : a / b = a' / b := Nat.le_antisymm (Nat.div_le_div_right h) hq
    have hr : a % b ≤ a' % b := by
      have e1 : b * (a / b) + a % b = a := Nat.div_add_mod a b
      have e2 : b * (a' / b) + a' % b = a' := Nat.div_add_mod a' b
      rw [hq'] at e1
      generalize b * (a' / b) = t at e1 e2
      omega
    unfold rheNat
    rw [hq']
    exact rheNat_mono_aux b (a' / b) (a % b) (a' % b) hr

theorem rheNat_le_of_lt_mul {a b c : Nat} (hb : 0 < b) (h : a < c * b) : rheNat a b ≤ c := by
  have h1 : a / b < c := by
    rwa [Nat.div_lt_iff_lt_mul hb]
  have h2 : rheNat a b ≤ a / b + 1 := rheNat_le a b
  omega

theorem le_rheNat_of_mul_le {a b c : Nat} (hb : 0 < b) (h : c * b ≤ a) : c ≤ rheNat a b := by
  have h1 : c ≤ a / b := by
    rwa [Nat.le_div_iff_mul_le hb]
  have h2 : a / b ≤ rheNat a b := le_rheNat a b
  omega

theorem pw2 : (1024 : Nat) ^ 2 = 1048576 := by norm_num

theorem pw3 : (1024 : Nat) ^ 3 = 1073741824 := by norm_num

theorem pw4 : (1024 : Nat) ^ 4 = 1099511627776 := by norm_num

theorem pw5 : (1024 : Nat) ^ 5 = 1125899906842624 := by norm_num

theorem pw6 : (1024 : Nat) ^ 6 = 1152921504606846976 := by norm_num

theorem pw7 : (1024 : Nat) ^ 7 = 1180591620717411303424 := by norm_num

theorem pw8 : (1024 : Nat) ^ 8 = 1208925819614629174706176 := by norm_num

theorem unitIndex_le_seven (n : Nat) : unitIndex n ≤ 7 := by
  unfold unitIndex
  split_ifs <;> omega

theorem pow_unitIndex_le {n : Nat} (hn : 1024 ≤ n) : 1024 ^ (unitIndex n + 1) ≤ n := by
  unfold unitIndex
  rw [pw2, pw3, pw4, pw5, pw6, pw7, pw8]
  split_ifs <;> norm_num <;> omega

set_option maxHeartbeats 2000000 in
theorem unitIndex_mono {a b : Nat} (h : a ≤ b) : unitIndex a ≤ unitIndex b := by
  unfold unitIndex
  rw [pw2, pw3, pw4, pw5, pw6, pw7, pw8]
  split_ifs <;> omega

theorem unitIndex_eq_seven {n : Nat} (hn : 1024 ^ 8 ≤ n) : unitIndex n = 7 := by
  unfold unitIndex
  rw [pw8] at hn
  rw [pw2, pw3, pw4, pw5, pw6, pw7, pw8]
  split_ifs <;> omega

theorem lt_pow_unitIndex_add_two {n : Nat} (hn : n < 1024 ^ 8) : n < 1024 ^ (unitIndex n + 2) := by
  unfold unitIndex
  rw [pw8] at hn
  rw [pw2, pw3, pw4, pw5, pw6, pw7, pw8]
  split_ifs <;> norm_num <;> omega

theorem magTenths_mono {a b : Nat} (h : a ≤ b) : magTenths a ≤ magTenths b := by
  by_cases ha : a < 1024
  · by_cases hb : b < 1024
    · simp only [magTenths, if_pos ha, if_pos hb]
      omega
    · have hb' : 1024 ≤ b := by omega
      simp only [magTenths, if_pos ha, if_neg hb]
      have hd : 1024 ^ (unitIndex b + 1) ≤ b := pow_unitIndex_le hb'
      have hdpos : 0 < 1024 ^ (unitIndex b + 1) := pow_pos (by norm_num) _
      have h10 : 10 ≤ rheNat (10 * b) (1024 ^ (unitIndex b + 1)) :=
        le_rheNat_of_mul_le hdpos (by omega)
      have hd1024 : 1024 ≤ 1024 ^ (unitIndex b + 1) := by
        calc 1024 = 1024 ^ 1 := (pow_one 1024).symm
          _ ≤ 1024 ^ (unitIndex b + 1) := Nat.pow_le_pow_right (by norm_num) (by omega)
      have hmul : 10 * 1024 ^ (unitIndex b + 1) ≤
          rheNat (10 * b) (1024 ^ (unitIndex b + 1)) * 1024 ^ (unitIndex b + 1) :=
        Nat.mul_le_mul_right _ h10
      omega
  · have ha' : 1024 ≤ a := by omega
    have hb' : 1024 ≤ b := by omega
    simp only [magTenths, if_neg ha, if_neg (show ¬ b < 1024 by omega)]
    have hij : unitIndex a ≤ unitIndex b := unitIndex_mono h
    rcases Nat.eq_or_lt_of_le hij with he | hlt
    · rw [← he]
      exact Nat.mul_le_mul_right _ (rheNat_mono _ (by omega))
    · have h6 : unitIndex a ≤ 6 := by
        have h7 := unitIndex_le_seven b
        omega
      have haP : a < 1024 ^ 8 := by
        by_contra hc
        have h7 := unitIndex_eq_seven (show 1024 ^ 8 ≤ a by omega)
        omega
      have hacap : a < 1024 ^ (unitIndex a + 2) := lt_pow_unitIndex_add_two haP
      have hda : 0 < 1024 ^ (unitIndex a + 1) := pow_pos (by norm_num) _
      have hdb : 0 < 1024 ^ (unitIndex b + 1) := pow_pos (by norm_num) _
      have hsplit : 10 * 1024 ^ (unitIndex a + 2) = 10240 * 1024 ^ (unitIndex a + 1) := by
        have e2 : unitIndex a + 2 = (unitIndex a + 1) + 1 := by omega
        rw [e2, pow_succ]
        ring
      have hA : rheNat (10 * a) (1024 ^ (unitIndex a + 1)) ≤ 10240 :=
        rheNat_le_of_lt_mul hda (by omega)
      have hB : 10 ≤ rheNat (10 * b) (1024 ^ (unitIndex b + 1)) := by
        have hd := pow_unitIndex_le hb'
        exact le_rheNat_of_mul_le hdb (by omega)
      have hpow : 1024 ^ (unitIndex a + 2) ≤ 1024 ^ (unitIndex b + 1) :=
        Nat.pow_le_pow_right (by norm_num) (by omega)
      calc rheNat (10 * a) (1024 ^ (unitIndex a + 1)) * 1024 ^ (unitIndex a + 1) ≤
            10240 * 1024 ^ (unitIndex a + 1) := Nat.mul_le_mul_right _ hA
        _ = 10 * 1024 ^ (unitIndex a + 2) := hsplit.symm
        _ ≤ 10 * 1024 ^ (unitIndex b + 1) := by omega
        _ ≤ rheNat (10 * b) (1024 ^ (unitIndex b + 1)) * 1024 ^ (unitIndex b + 1) :=
          Nat.mul_le_mul_right _ hB

theorem usesBinaryUnit_naturalsizeBinary (n : Nat) : usesBinaryUnit (naturalsizeBinary n) := by
  unfold naturalsizeBinary
  split_ifs with h1 h2
  · exact ⟨"1", " Byte", by simp [unitStrings], by decide⟩
  · exact ⟨toString n, " Bytes", by simp [unitStrings], rfl⟩
  · refine ⟨fmtTenths (rheNat (10 * n) (1024 ^ (unitIndex n + 1))),
      " " ++ binarySuffixes.getD (unitIndex n) "YiB", ?_, String.append_assoc _ _ _⟩
    have h7 : unitIndex n ≤ 7 := unitIndex_le_seven n
    have h8 : unitIndex n = 0 ∨ unitIndex n = 1 ∨ unitIndex n = 2 ∨ unitIndex n = 3 ∨
        unitIndex n = 4 ∨ unitIndex n = 5 ∨ unitIndex n = 6 ∨ unitIndex n = 7 := by omega
    rcases h8 with hk | hk | hk | hk | hk | hk | hk | hk <;> rw [hk] <;> decide

/-! ## Helper lemmas: the regex search of extract_collection -/

theorem matchAt_eq_some {l : List Char} {c : String} (h : matchAt l = some c) :
    ∃ h1 h2 rest, (isHexLower h1 && isHexLower h2) = true ∧ c = String.mk [h1, h2] ∧
      l = "/bil/data/".data ++ h1 :: h2 :: '/' :: rest := by
  unfold matchAt at h
  by_cases ht : l.take 10 = "/bil/data/".data
  · rw [if_pos ht] at h
    rcases hd : l.drop 10 with _ | ⟨h1, _ | ⟨h2, _ | ⟨c3, rest⟩⟩⟩ <;> rw [hd] at h
    · exact Option.noConfusion h
    · exact Option.noConfusion h
    · exact Option.noConfusion h
    · have h' : (if c3 = '/' ∧ (isHexLower h1 && isHexLower h2) = true
          then some (String.mk [h1, h2]) else none) = some c := h
      by_cases hc : c3 = '/' ∧ (isHexLower h1 && isHexLower h2) = true
      · rw [if_pos hc] at h'
        refine ⟨h1, h2, rest, hc.2, (Option.some.inj h').symm, ?_⟩
        have hl := (List.take_append_drop 10 l).symm
        rw [ht, hd, hc.1] at hl
        exact hl
      · rw [if_neg hc] at h'
        exact Option.noConfusion h'
  · rw [if_neg ht] at h
    exact Option.noConfusion h

theorem matchAt_seg {h1 h2 : Char} (rest : List Char)
    (hex : (isHexLower h1 && isHexLower h2) = true) :
    matchAt ("/bil/data/".data ++ h1 :: h2 :: '/' :: rest) = some (String.mk [h1, h2]) := by
  have h10 : ("/bil/data/".data).length = 10 := by decide
  unfold matchAt
  rw [show (10 : Nat) = ("/bil/data/".data).length from h10.symm, List.take_left, List.drop_left]
  rw [if_pos rfl]
  exact if_pos ⟨rfl, hex⟩

theorem searchFrom_eq_some :
    ∀ l : List Char, ∀ c : String, searchFrom l = some c →
      ∃ pre h1 h2 rest, (isHexLower h1 && isHexLower h2) = true ∧ c = String.mk [h1, h2] ∧
        l = pre ++ ("/bil/data/".data ++ h1 :: h2 :: '/' :: rest) := by
  intro l
  induction l with
  | nil =>
    intro c h
    exact Option.noConfusion h
  | cons a as ih =>
    intro c h
    unfold searchFrom at h
    cases hm : matchAt (a :: as) with
    | some s =>
      rw [hm] at h
      obtain ⟨h1, h2, rest, hex, hc, hl⟩ := matchAt_eq_some hm
      exact ⟨[], h1, h2, rest, hex, (Option.some.inj h) ▸ hc, by simpa using hl⟩
    | none =>
      rw [hm] at h
      obtain ⟨pre, h1, h2, rest, hex, hc, hl⟩ := ih c h
      exact ⟨a :: pre, h1, h2, rest, hex, hc, by simp [hl]⟩

theorem searchFrom_append_isSome :
    ∀ pre l : List Char, (searchFrom l).isSome = true → (searchFrom (pre ++ l)).isSome = true := by
  intro pre
  induction pre with
  | nil =>
    intro l h
    simpa using h
  | cons a as ih =>
    intro l h
    rw [List.cons_append]
    unfold searchFrom
    cases hm : matchAt (a :: (as ++ l)) with
    | some s => rfl
    | none => exact ih l h

theorem searchFrom_seg_isSome (pre rest : List Char) (h1 h2 : Char)
    (hex : (isHexLower h1 && isHexLower h2) = true) :
    (searchFrom (pre ++ ("/bil/data/".data ++ h1 :: h2 :: '/' :: rest))).isSome = true := by
  apply searchFrom_append_isSome
  have hdata : "/bil/data/".data = '/' :: "bil/data/".data := by decide
  have hm := matchAt_seg rest hex
  rw [hdata, List.cons_append]
  rw [hdata, List.cons_append] at hm
  unfold searchFrom
  rw [hm]
  rfl

theorem chain'_of_forall {α : Type} {R : α → α → Prop} :
    ∀ l : List α, (∀ a ∈ l, ∀ b ∈ l, R a b) → List.Chain' R l := by
  intro l
  induction l with
  | nil => exact fun _ => List.chain'_nil
  | cons a l ih =>
    intro hall
    cases l with
    | nil => exact List.chain'_singleton a
    | cons b l' =>
      rw [List.chain'_cons]
      constructor
      · exact hall a (by simp) b (by simp)
      · exact ih fun x hx y hy => hall x (by simp [hx]) y (by simp [hy])

/-! ## Claim C1 -/

/-- C1 counterexample: the path slash other slash 3f slash x contains a
two-hex-character segment between slashes, so the claim as stated demands
the code 3f, but extract_collection returns None because the pattern
anchors the group to the literal bil data root. -/
theorem c1_counterexample :
    specTwoHexSeg "/other/3f/x" ∧ extract_collection "/other/3f/x" = none := by
  constructor
  · exact ⟨'3', 'f', "/other".data, "x".data, by decide, by decide⟩
  · decide

/-- C1 (amended): extract_collection returns a code exactly when the path
contains a segment of the form slash bil slash data slash, two lowercase
hex characters, slash; any returned code is the two-hex group of such an
occurrence; and a path with no two-hex segment between slashes at all (in
particular none after the bil data root) yields None. -/
theorem c1_extract_collection_amended (path : String) :
    (∀ c, extract_collection path = some c →
        ∃ pre h1 h2 rest, (isHexLower h1 && isHexLower h2) = true ∧ c = String.mk [h1, h2] ∧
          path.data = pre ++ ("/bil/data/".data ++ h1 :: h2 :: '/' :: rest)) ∧
      ((∃ pre h1 h2 rest, (isHexLower h1 && isHexLower h2) = true ∧
          path.data = pre ++ ("/bil/data/".data ++ h1 :: h2 :: '/' :: rest)) →
        (extract_collection path).isSome = true) ∧
      (¬ specTwoHexSeg path → extract_collection path = none) := by
  refine ⟨fun c h => searchFrom_eq_some path.data c h, ?_, ?_⟩
  · rintro ⟨pre, h1, h2, rest, hex, hl⟩
    unfold extract_collection
    rw [hl]
    exact searchFrom_seg_isSome pre rest h1 h2 hex
  · intro hnspec
    cases hse : extract_collection path with
    | none => rfl
    | some c =>
      exfalso
      obtain ⟨pre, h1, h2, rest, hex, _, hl⟩ := searchFrom_eq_some path.data c hse
      apply hnspec
      have hsplit : "/bil/data/".data = "/bil/data".data ++ ['/'] := by decide
      refine ⟨h1, h2, pre ++ "/bil/data".data, rest, hex, ?_⟩
      rw [hl, hsplit]
      simp

/-- C1 witness: the amended theorem applied at a matching concrete path. -/
theorem c1_witness :
    ∃ pre h1 h2 rest, (isHexLower h1 && isHexLower h2) = true ∧
      ("3f" : String) = String.mk [h1, h2] ∧
      ("/bil/data/3f/x" : String).data =
        pre ++ ("/bil/data/".data ++ h1 :: h2 :: '/' :: rest) :=
  (c1_extract_collection_amended "/bil/data/3f/x").1 "3f" (by decide)

/-! ## Claim C2 -/

/-- Seventeen records of one file count, enough that the numpy introsort
behind the pandas default sort demonstrably permutes equal keys (its
partition pass swaps symmetric positions once the range exceeds the
insertion-sort threshold of 16). -/
def c2recs : List Record :=
  (List.range 17).map fun i => Record.mk (toString i) "/d" 5 none none none

/-- C2 counterexample: the sort contract of pandas sort_values with the
default quicksort kind admits the reversed output on seventeen records of
equal file count (any ascending reordering is permitted, and numpy
introsort really does reorder seventeen equal keys), and that output does
not keep the tied records in their original input order, refuting the
stability half of the claim. -/
theorem c2_counterexample :
    sort_values_files_desc c2recs c2recs.reverse ∧
      ¬ (c2recs.reverse.filter fun r => r.number_of_files == 5) =
          (c2recs.filter fun r => r.number_of_files == 5) := by
  constructor
  · refine ⟨c2recs, ⟨by decide, chain'_of_forall c2recs fun a ha b hb => ?_⟩, by decide⟩
    have h5 : ∀ x ∈ c2recs, x.number_of_files = 5 := by
      intro x hx
      simp only [c2recs, List.mem_map] at hx
      obtain ⟨i, _, rfl⟩ := hx
      rfl
    rw [h5 a ha, h5 b hb]
  · decide

/-- C2 (amended): every output the pandas sort contract permits for
sort_values by file count descending is a permutation of the input whose
adjacent rows satisfy the descending file-count inequality; the tie order
is not guaranteed (the default quicksort kind is not stable). -/
theorem c2_sort_descending_amended (l out : List Record)
    (h : sort_values_files_desc l out) :
    List.Perm out l ∧
      List.Chain' (fun a b => b.number_of_files ≤ a.number_of_files) out := by
  obtain ⟨mid, ⟨hperm, hchain⟩, rfl⟩ := h
  constructor
  · exact ((List.reverse_perm mid).trans hperm).trans (List.reverse_perm l)
  · rw [List.chain'_reverse]
    exact hchain

/-- C2 witness: the amended theorem applied to a concrete run of the
contract. -/
theorem c2_witness :
    List.Perm [Record.mk "A" "/d" 2 none none none, Record.mk "B" "/d" 1 none none none]
        [Record.mk "A" "/d" 2 none none none, Record.mk "B" "/d" 1 none none none] ∧
      List.Chain' (fun a b => b.number_of_files ≤ a.number_of_files)
        [Record.mk "A" "/d" 2 none none none, Record.mk "B" "/d" 1 none none none] :=
  c2_sort_descending_amended
    [Record.mk "A" "/d" 2 none none none, Record.mk "B" "/d" 1 none none none]
    [Record.mk "A" "/d" 2 none none none, Record.mk "B" "/d" 1 none none none]
    ⟨[Record.mk "B" "/d" 1 none none none, Record.mk "A" "/d" 2 none none none],
      ⟨by decide, by simp [List.chain'_cons, List.chain'_singleton]⟩, by decide⟩

/-- When the underlying argsort is stable (numpy does use a stable
insertion sort below its threshold of 17 elements), the pandas double
reversal keeps tied records in their original input order: filtering the
deterministic representative by one file count recovers the matching
input rows unchanged. -/
theorem df_sorted_filter_eq (l : List Record) (c : Nat) :
    ((df_sorted l).filter fun r => r.number_of_files == c) =
      l.filter fun r => r.number_of_files == c := by
  unfold df_sorted
  rw [List.filter_reverse, insertionSort_filter fileLe _ ?hp l.reverse, List.filter_reverse,
    List.reverse_reverse]
  intro a b ha hb
  have ha' : a.number_of_files = c := by simpa using ha
  have hb' : b.number_of_files = c := by simpa using hb
  unfold fileLe
  omega

/-- The deterministic representative used by the render model satisfies
the relational sort contract. -/
theorem df_sorted_sound (l : List Record) : sort_values_files_desc l (df_sorted l) := by
  refine ⟨List.insertionSort fileLe l.reverse,
    ⟨List.perm_insertionSort fileLe l.reverse, ?_⟩, rfl⟩
  exact List.Pairwise.chain' (List.sorted_insertionSort fileLe l.reverse)

/-! ## Claim C3 -/

/-- C3: when the fetch, the status check, the JSON parse or a
transformation inside the try block fails, the run renders exactly one
error element and no table and no chart. -/
theorem c3_error_single_message_no_partial_ui (todayStr : String)
    (fetched : Except String (List RawRecord)) (pick : List String → Option String)
    (e : String) (h : tryBlock fetched pick = Except.error e) :
    ((runApp todayStr fetched pick).filter isErrorElem).length = 1 ∧
      ((runApp todayStr fetched pick).filter isTableElem).length = 0 ∧
      ((runApp todayStr fetched pick).filter isChartElem).length = 0 := by
  unfold runApp
  rw [h]
  simp [preamble, isErrorElem, isTableElem, isChartElem]

/-- C3 witness: a run whose fetch fails with an HTTP 500 status error. -/
theorem c3_witness :
    ((runApp "July 01, 2025" (Except.error "500 Server Error: Internal Server Error")
            fun _ => none).filter isErrorElem).length = 1 ∧
      ((runApp "July 01, 2025" (Except.error "500 Server Error: Internal Server Error")
            fun _ => none).filter isTableElem).length = 0 ∧
      ((runApp "July 01, 2025" (Except.error "500 Server Error: Internal Server Error")
            fun _ => none).filter isChartElem).length = 0 :=
  c3_error_single_message_no_partial_ui "July 01, 2025"
    (Except.error "500 Server Error: Internal Server Error") (fun _ => none)
    "500 Server Error: Internal Server Error" rfl

/-! ## Claim C4 -/

/-- C4: an absent raw size keeps the formatted size absent (no sentinel
rendering); a present raw size always renders with a binary 1024-based
unit; 1073741824 bytes render as the string 1.0 GiB. -/
theorem c4_pretty_size_contract :
    pretty_size none = none ∧
      (∀ s : Nat, ∃ out, pretty_size (some s) = some out ∧ usesBinaryUnit out) ∧
      pretty_size (some 1073741824) = some "1.0 GiB" :=
  ⟨rfl, fun s => ⟨naturalsizeBinary s, rfl, usesBinaryUnit_naturalsizeBinary s⟩, by decide⟩

/-! ## Claim C5 -/

/-- C5: the pie input is exactly the positive-count datasets of the
selected collection (a permutation of that filtered projection, so a
zero-count dataset never contributes a slice), and its slices are in
descending file-count order. -/
theorem c5_pie_data_exact_and_descending (recs : List Record) (sel : String) :
    List.Perm (pie_data recs (some sel))
        ((recs.filter fun r => r.collection == some sel && decide (0 < r.number_of_files)).map
          fun r => (r.bildid, r.number_of_files)) ∧
      List.Chain' (fun a b : String × Nat => b.2 ≤ a.2) (pie_data recs (some sel)) := by
  constructor
  · unfold pie_data
    refine (List.reverse_perm _).trans ?_
    refine (List.perm_insertionSort sliceLe _).trans ?_
    have he : (((recs.filter fun r => r.collection == some sel).map
            fun r => (r.bildid, r.number_of_files)).filter fun p => decide (0 < p.2)) =
        ((recs.filter fun r => r.collection == some sel && decide (0 < r.number_of_files)).map
          fun r => (r.bildid, r.number_of_files)) := by
      rw [List.filter_map, List.filter_filter]
      apply congrArg
      apply List.filter_congr
      intro a _
      simp [Function.comp, Bool.and_comm]
    rw [he]
  · unfold pie_data
    rw [List.chain'_reverse]
    exact List.Pairwise.chain' (List.sorted_insertionSort sliceLe _)

/-! ## Claim C6 -/

/-- C6: the selector offers exactly the collection codes present in the
data, null-filtered, de-duplicated, in strictly ascending lexicographic
order. -/
theorem c6_unique_collections_sorted_dedup_exact (recs : List Record) :
    List.Pairwise strLt (unique_collections recs) ∧
      ∀ x, x ∈ unique_collections recs ↔ ∃ r, r ∈ recs ∧ r.collection = some x := by
  haveI : IsTotal String strLe := ⟨strLe_total⟩
  haveI : IsTrans String strLe := ⟨strLe_trans⟩
  have hsort : List.Sorted strLe (unique_collections recs) := by
    unfold unique_collections
    exact List.sorted_insertionSort strLe _
  have hperm : List.Perm (unique_collections recs)
      (uniqueFirstAux [] (recs.filterMap fun r => r.collection)) := by
    unfold unique_collections
    exact List.perm_insertionSort strLe _
  have hnd : (unique_collections recs).Nodup :=
    hperm.nodup_iff.mpr (nodup_uniqueFirstAux (recs.filterMap fun r => r.collection) [])
  constructor
  · have hpair := List.Pairwise.and hsort hnd
    exact hpair.imp fun h => strLt_of_strLe_of_ne h.1 h.2
  · intro x
    rw [hperm.mem_iff, mem_uniqueFirstAux]
    simp [List.mem_filterMap]

/-! ## Claim C7 -/

/-- C7: the magnitude a reader extracts from the rendered size is
monotone in the raw byte size, and every rendering carries a binary
1024-based unit. -/
theorem c7_size_formatting_monotone_binary (a b n : Nat) (h : a ≤ b) :
    magTenths a ≤ magTenths b ∧ usesBinaryUnit (naturalsizeBinary n) :=
  ⟨magTenths_mono h, usesBinaryUnit_naturalsizeBinary n⟩

/-- C7 witness: monotonicity applied across a unit boundary. -/
theorem c7_witness :
    magTenths 1048575 ≤ magTenths 1073741824 ∧ usesBinaryUnit (naturalsizeBinary 5) :=
  c7_size_formatting_monotone_binary 1048575 1073741824 5 (by norm_num)

/-! ## Claim C8 -/

/-- C8: a non-empty pie input of n slices gets a legend of ceiling of n
over 25 columns, so every legend column holds at most 25 entries. -/
theorem c8_legend_columns (recs : List Record) (sel : String)
    (h : pie_data recs (some sel) ≠ []) :
    legendNumCols ((pie_data recs (some sel)).map Prod.fst) =
        ((((pie_data recs (some sel)).length + 24) / 25 : Nat) : Int) ∧
      (pie_data recs (some sel)).length ≤
        25 * (((pie_data recs (some sel)).length + 24) / 25) := by
  have hlen : 1 ≤ (pie_data recs (some sel)).length := by
    cases hp : pie_data recs (some sel) with
    | nil => exact absurd hp h
    | cons a l => simp [hp]
  unfold legendNumCols
  rw [List.length_map]
  generalize hn : (pie_data recs (some sel)).length = n
  rw [hn] at hlen
  constructor
  · have hc1 : (n : Int) - 1 = ((n - 1 : Nat) : Int) := by omega
    rw [hc1]
    have hc2 : ((n - 1 : Nat) : Int).fdiv 25 = (((n - 1) / 25 : Nat) : Int) :=
      (Int.ofNat_fdiv (n - 1) 25).symm
    rw [hc2]
    omega
  · omega

/-- C8 witness: a pie input of one slice gets one legend column. -/
theorem c8_witness :
    legendNumCols ((pie_data [Record.mk "A" "/d" 3 none (some "aa") none] (some "aa")).map
          Prod.fst) =
        ((((pie_data [Record.mk "A" "/d" 3 none (some "aa") none] (some "aa")).length + 24) /
            25 : Nat) : Int) ∧
      (pie_data [Record.mk "A" "/d" 3 none (some "aa") none] (some "aa")).length ≤
        25 * (((pie_data [Record.mk "A" "/d" 3 none (some "aa") none]
              (some "aa")).length + 24) / 25) :=
  c8_legend_columns [Record.mk "A" "/d" 3 none (some "aa") none] "aa" (by decide)

/-! ## Claim C9 -/

/-- C9: the filtered table keeps the matching rows in original fetch
order - it is a sublist of the input holding exactly the matching
records - and it is not the descending-sorted order of the full table. -/
theorem c9_filtered_table_original_order (recs : List Record) (sel : String) :
    List.Sublist (filtered_df recs (some sel)) recs ∧
      (∀ r, r ∈ filtered_df recs (some sel) ↔ r ∈ recs ∧ r.collection = some sel) ∧
      ¬ ∀ (recs' : List Record) (sel' : String),
          filtered_df recs' (some sel') =
            (df_sorted recs').filter fun r => r.collection == some sel' := by
  refine ⟨List.filter_sublist recs, fun r => ?_, fun hall => ?_⟩
  · rw [filtered_df, List.mem_filter]
    simp [beq_iff_eq]
  · have hc := hall
      [Record.mk "A" "/d" 1 none (some "aa") none, Record.mk "B" "/d" 9 none (some "aa") none]
      "aa"
    revert hc
    decide

/-! ## Claim C10 -/

/-- C10: with the active selection drawn from the selector, a record with
a null collection code never reaches the filtered table, and every pie
slice stems from a record whose collection code equals the selection. -/
theorem c10_null_collection_never_selected (recs : List Record) (sel : String)
    (_hsel : sel ∈ unique_collections recs) :
    (∀ r ∈ filtered_df recs (some sel), r.collection ≠ none) ∧
      ∀ p ∈ pie_data recs (some sel),
        ∃ r, r ∈ recs ∧ r.collection = some sel ∧ p = (r.bildid, r.number_of_files) := by
  constructor
  · intro r hr hnone
    rw [filtered_df, List.mem_filter] at hr
    have hb := hr.2
    rw [hnone] at hb
    simp at hb
  · intro p hp
    unfold pie_data at hp
    rw [List.mem_reverse, List.mem_insertionSort, List.mem_filter] at hp
    obtain ⟨hpmem, _⟩ := hp
    rw [List.mem_map] at hpmem
    obtain ⟨r, hrmem, hrp⟩ := hpmem
    rw [List.mem_filter] at hrmem
    refine ⟨r, hrmem.1, ?_, hrp.symm⟩
    have hb := hrmem.2
    simpa using hb

/-- C10 witness: a concrete selection drawn from the selector. -/
theorem c10_witness :
    (∀ r ∈ filtered_df [Record.mk "A" "/d" 2 none (some "aa") none] (some "aa"),
        r.collection ≠ none) ∧
      ∀ p ∈ pie_data [Record.mk "A" "/d" 2 none (some "aa") none] (some "aa"),
        ∃ r, r ∈ [Record.mk "A" "/d" 2 none (some "aa") none] ∧ r.collection = some "aa" ∧
          p = (r.bildid, r.number_of_files) :=
  c10_null_collection_never_selected [Record.mk "A" "/d" 2 none (some "aa") none] "aa"
    (by decide)

end BrainInventory
